import Mathlib

/-!
Verification development for the `octodns-netbox-dns` provider
(`src/octodns_netbox_dns/__init__.py`, class `NetBoxDNSSource`).

The file shallowly embeds the two pieces of provider-specific logic:

* the record translator (`populate`, lines 110-233): NetBox records are
  normalized (apex `@` handling, CNAME absolutization, TTL fallback),
  decoded per record type, and coalesced by `(name, type)` key into
  canonical records;
* the change applicator (`_apply`, lines 235-341): octoDNS `Create`,
  `Delete` and `Update` changes are turned into NetBox API calls
  (`records.create`, `record.delete()`, `record.save()` after a TTL
  assignment).

External collaborators (the pynetbox HTTP client, dnspython's
`dns.rdata.from_text` parser and octoDNS' value `repr` serialization)
are modelled as inputs: the parser is an explicit function argument
producing an `Rdata` (the fields of the parsed object that the source
reads), the remote store is an explicit list of `RemoteRecord`s, and
octoDNS record values are carried as their serialized raw strings.
-/

/-- Parsed `dns.rdata` LOC coordinate: the source reads
`rdata.latitude[0] .. rdata.latitude[4]` (degrees, minutes, seconds,
milliseconds, hemisphere sign `1`/`-1`); same layout for `longitude`. -/
structure LocCoord where
  degrees : Nat
  minutes : Nat
  seconds : Nat
  milliseconds : Nat
  sign : Int
deriving DecidableEq, Repr

/-- Fields of a parsed LOC rdata that the source reads (including the
source's misspelt `veritical_precision` attribute access). -/
structure LocRdata where
  latitude : LocCoord
  longitude : LocCoord
  altitude : Int
  size : Int
  horizontal_precision : Int
  veritical_precision : Int
deriving DecidableEq, Repr

/-- The result of `dns.rdata.from_text("IN", type, rcd_value)`, restricted
to the fields the decode `match` in `populate` reads.  `other` covers any
`rdtype.name` with no case in the source's `match` (its default arm). -/
inductive Rdata where
  | a (address : String)
  | aaaa (address : String)
  | cname (target : String)
  | dname (target : String)
  | ns (target : String)
  | ptr (target : String)
  | caa (flags : Nat) (tag : String) (value : String)
  | loc (d : LocRdata)
  | mx (preference : Nat) (exchange : String)
  | naptr (order : Nat) (preference : Nat) (flags : String) (service : String)
      (regexp : String) (replacement : String)
  | sshfp (algorithm : Nat) (fp_type : Nat) (fingerprint : String)
  | soa
  | spf
  | txt
  | srv (priority : Nat) (weight : Nat) (port : Nat) (target : String)
  | other (rdtypeName : String)
deriving DecidableEq, Repr

/-- The per-type decoded value built by the decode `match` in `populate`
(lines 146-215).  Fractional fields of LOC are rationals, mirroring the
source's `/ 100` and `+ .../1000` arithmetic exactly. -/
inductive DecodedValue where
  | addr (address : String)
  | nameV (target : String)
  | caa (flags : Nat) (tag : String) (value : String)
  | loc (lat_direction : String) (lat_degrees : Nat) (lat_minutes : Nat)
      (lat_seconds : ℚ) (long_direction : String) (long_degrees : Nat)
      (long_minutes : Nat) (long_seconds : ℚ) (altitude : ℚ) (size : ℚ)
      (precision_horz : ℚ) (precision_vert : ℚ)
  | mx (preference : Nat) (exchange : String)
  | naptr (order : Nat) (preference : Nat) (flags : String) (service : String)
      (regexp : String) (replacement : String)
  | sshfp (algorithm : Nat) (fingerprint_type : Nat) (fingerprint : String)
  | srv (priority : Nat) (weight : Nat) (port : Nat) (target : String)
  | text (value : String)
deriving DecidableEq, Repr

/-- Raised by the default arm of the decode `match` (`raise ValueError`,
line 215). -/
inductive DecodeError where
  | valueError
deriving DecidableEq, Repr

/-- A NetBox record as read by `populate`: the attributes of `nb_record`
the source accesses.  `ttl` is `none` when the NetBox field is null;
`zoneName` is `nb_record.zone.name`, the record's zone's fully-qualified
name as returned by the API. -/
structure NBRecord where
  name : String
  type : String
  value : String
  ttl : Option Nat
  zoneName : String
deriving DecidableEq, Repr

/-- The zone attributes `populate` reads from `nb_zone`. -/
structure NBZone where
  soa_refresh : Nat
  default_ttl : Nat
deriving DecidableEq, Repr

/-- Provider configuration taken by `NetBoxDNSSource.__init__` (besides
`id`): `view` is `False` (no view filter), `None` (explicit null view) or
a view name; `ttl` defaults to 3600. -/
structure ProviderConfig where
  url : String
  token : String
  view : Option (Option String)
  ttl : Nat
  replace_duplicates : Bool
deriving DecidableEq, Repr

/-- Line 125: `rcd_name = nb_record.name if nb_record.name != "@" else ""`. -/
def rcd_name (r : NBRecord) : String :=
  if r.name = "@" then "" else r.name

/-- Line 126: `rcd_value = nb_record.value if nb_record.value != "@" else
nb_record.zone.name`. -/
def rcd_value_sub (r : NBRecord) : String :=
  if r.value = "@" then r.zoneName else r.value

/-- Lines 128-130: `if nb_record.type == "CNAME" and rcd_value[-1] != "."`,
append `"."`.  Faithful for non-empty values (on an empty value the Python
`[-1]` index would raise instead). -/
def cnameAbs (ty v : String) : String :=
  if ty = "CNAME" ∧ v.back ≠ '.' then v ++ "." else v

/-- `populate` runs as a method of a configured `NetBoxDNSSource`; the
CNAME absolutization step reads none of the instance's configuration
(lines 128-130 mention no flag), which this wrapper makes explicit. -/
def cnameAbsCfg (cfg : ProviderConfig) (ty v : String) : String :=
  cnameAbs ty v

/-- The fully normalized value handed to `dns.rdata.from_text` and used
by the `SPF`/`TXT` arm. -/
def rcd_value_final (r : NBRecord) : String :=
  cnameAbs r.type (rcd_value_sub r)

/-- Python truthiness of the optional `nb_record.ttl` (`if nb_record.ttl:`
at line 132): true iff present and non-zero. -/
def ttlTruthy : Option Nat → Bool
  | some n => n ≠ 0
  | none => false

/-- Lines 132-137: TTL resolution of one record. -/
def resolveTTL (zone : NBZone) (r : NBRecord) : Nat :=
  if ttlTruthy r.ttl then r.ttl.getD 0
  else if r.type = "NS" then zone.soa_refresh
  else zone.default_ttl

/-- The decode `match rdata.rdtype.name` (lines 146-215).  `rcd_value` is
the normalized value string, used directly by the `SPF`/`TXT` arm.
Returns `ok none` for the `SOA` arm (`continue`), and `valueError` for the
default arm (`raise ValueError`). -/
def decodeRdata (rdata : Rdata) (rcd_value : String) :
    Except DecodeError (Option DecodedValue) :=
  match rdata with
  | .a address => .ok (some (.addr address))
  | .aaaa address => .ok (some (.addr address))
  | .cname target => .ok (some (.nameV target))
  | .dname target => .ok (some (.nameV target))
  | .ns target => .ok (some (.nameV target))
  | .ptr target => .ok (some (.nameV target))
  | .caa flags tag value => .ok (some (.caa flags tag value))
  | .loc d =>
      .ok (some (.loc
        (if 0 ≤ d.latitude.sign then "N" else "S")
        d.latitude.degrees d.latitude.minutes
        ((d.latitude.seconds : ℚ) + (d.latitude.milliseconds : ℚ) / 1000)
        (if 0 ≤ d.latitude.sign then "W" else "E")
        d.longitude.degrees d.longitude.minutes
        ((d.longitude.seconds : ℚ) + (d.longitude.milliseconds : ℚ) / 1000)
        ((d.altitude : ℚ) / 100) ((d.size : ℚ) / 100)
        ((d.horizontal_precision : ℚ) / 100)
        ((d.veritical_precision : ℚ) / 100)))
  | .mx preference exchange => .ok (some (.mx preference exchange))
  | .naptr o p f s rg rp => .ok (some (.naptr o p f s rg rp))
  | .sshfp a ft fp => .ok (some (.sshfp a ft fp))
  | .soa => .ok none
  | .spf => .ok (some (.text rcd_value))
  | .txt => .ok (some (.text rcd_value))
  | .srv p w po t => .ok (some (.srv p w po t))
  | .other _ => .error .valueError

/-- What one loop iteration of `populate` contributes to the grouping
dict: the `(rcd_name, nb_record.type)` key, the resolved TTL and the
decoded value. -/
structure Contribution where
  key : String × String
  ttl : Nat
  value : DecodedValue
deriving DecidableEq, Repr

/-- One iteration of the `populate` loop, parameterized over the string
actually substituted for `rcd_value` (the source computes
`rcd_value_sub`); CNAME absolutization and decoding happen downstream of
that substitution. -/
def contribAux (parse : String → String → Rdata) (zone : NBZone)
    (r : NBRecord) (subVal : String) :
    Except DecodeError (Option Contribution) :=
  let v := cnameAbs r.type subVal
  match decodeRdata (parse r.type v) v with
  | .error e => .error e
  | .ok none => .ok none
  | .ok (some dv) => .ok (some ⟨(rcd_name r, r.type), resolveTTL zone r, dv⟩)

/-- The full normalization + decode of one `nb_record` (lines 125-215). -/
def contribOf (parse : String → String → Rdata) (zone : NBZone)
    (r : NBRecord) : Except DecodeError (Option Contribution) :=
  contribAux parse zone r (rcd_value_sub r)

/-- An entry of the `records` dict (lines 139-144/217-219): the `data`
payload for one `(name, type)` key. -/
structure RecordData where
  name : String
  rtype : String
  ttl : Nat
  values : List DecodedValue
deriving DecidableEq, Repr

/-- Lines 217-219: if the key is absent, insert fresh `data` (name, type
and TTL of the current record, empty `values`); then append the decoded
value to the entry's `values`.  Insertion order of keys is preserved,
as for a Python dict. -/
def insertContrib (acc : List ((String × String) × RecordData))
    (c : Contribution) : List ((String × String) × RecordData) :=
  match acc with
  | [] => [(c.key, ⟨c.key.1, c.key.2, c.ttl, [c.value]⟩)]
  | (k, d) :: rest =>
      if k = c.key then
        (k, ⟨d.name, d.rtype, d.ttl, d.values ++ [c.value]⟩) :: rest
      else
        (k, d) :: insertContrib rest c

/-- The `for nb_record in nb_records` loop of `populate` (lines 122-219),
threading the `records` dict; a decode failure aborts the whole loop
(the exception propagates out of `populate`). -/
def populateGroups (parse : String → String → Rdata) (zone : NBZone) :
    List NBRecord → List ((String × String) × RecordData) →
    Except DecodeError (List ((String × String) × RecordData))
  | [], acc => .ok acc
  | r :: rs, acc =>
      match contribOf parse zone r with
      | .error e => .error e
      | .ok none => populateGroups parse zone rs acc
      | .ok (some c) => populateGroups parse zone rs (insertContrib acc c)

/-- Scalar versus list record shape (octoDNS `value` vs `values`). -/
inductive CanonicalValue where
  | single (v : DecodedValue)
  | multiple (vs : List DecodedValue)
deriving DecidableEq, Repr

/-- Data handed to `octodns.record.Record.new` for one `(name, type)`
key. -/
structure CanonicalRecord where
  name : String
  rtype : String
  ttl : Nat
  value : CanonicalValue
deriving DecidableEq, Repr

/-- Lines 222-223: a one-element `values` list is collapsed to a scalar
`value`; anything else stays a list. -/
def shapeValues : List DecodedValue → CanonicalValue
  | [v] => .single v
  | vs => .multiple vs

def mkCanonicalRecord (d : RecordData) : CanonicalRecord :=
  ⟨d.name, d.rtype, d.ttl, shapeValues d.values⟩

/-- The record translation performed by `populate` (lines 110-233),
excluding the remote fetches: given the parsed-rdata oracle, the zone
attributes and the fetched NetBox records, produce the canonical records
added to the octoDNS zone, or the decode error that aborts the call. -/
def populateRecords (parse : String → String → Rdata) (zone : NBZone)
    (rs : List NBRecord) : Except DecodeError (List CanonicalRecord) :=
  (populateGroups parse zone rs []).map
    (fun gs => gs.map (fun kd => mkCanonicalRecord kd.2))

/-- As `populateRecords`, run as a method of a provider configured with
`cfg`; the translation reads none of the configuration (the
`replace_duplicates` flag only reaches the excluded
`zone.add_record`). -/
def populateRecordsCfg (cfg : ProviderConfig)
    (parse : String → String → Rdata) (zone : NBZone)
    (rs : List NBRecord) : Except DecodeError (List CanonicalRecord) :=
  populateRecords parse zone rs

/-- A record held by NetBox, as seen through
`api.plugins.netbox_dns.records.filter(...)` in `_apply`: the attributes
the source reads plus an identity (`nb_record.id`/URL) that mutation
calls target. -/
structure RemoteRecord where
  id : Nat
  name : String
  rtype : String
  value : String
deriving DecidableEq, Repr

/-- An octoDNS record value set: `ValueMixin` records carry one value,
`ValuesMixin` records a list.  Values appear in the serialized raw-string
form the source computes as `repr(v)[1:-1]` (octoDNS `repr` serialization
is an excluded collaborator). -/
inductive OctoValues where
  | single (v : String)
  | multiple (vs : List String)
deriving DecidableEq, Repr

/-- The attributes of an octoDNS record (`change.new` / `change.existing`)
that `_apply` reads: `name`, `_type`, `ttl` and the value payload. -/
structure OctoRecord where
  name : String
  rtype : String
  ttl : Nat
  values : OctoValues
deriving DecidableEq, Repr

/-- The raw value strings of a record before set conversion. -/
def OctoRecord.rawValues (r : OctoRecord) : List String :=
  match r.values with
  | .single v => [v]
  | .multiple vs => vs

/-- Python `set(...)` of raw value strings: duplicates collapse; the
source iterates these sets in an unspecified order, modelled here by the
deduplicated list. -/
def pySet (vs : List String) : List String := vs.dedup

/-- An octoDNS plan change consumed by `_apply`. -/
inductive Change where
  | create (new : OctoRecord)
  | delete (existing : OctoRecord)
  | update (existing : OctoRecord) (new : OctoRecord)
deriving DecidableEq, Repr

/-- A NetBox mutation call issued by `_apply`: `records.create(...)`,
`nb_record.delete()`, or `nb_record.ttl = ...; nb_record.save()`. -/
inductive ApiCall where
  | create (zoneId : Nat) (name : String) (rtype : String) (ttl : Nat)
      (value : String) (disablePtr : Bool)
  | delete (recordId : Nat)
  | saveTtl (recordId : Nat) (ttl : Nat)
deriving DecidableEq, Repr

/-- The NetBox record a mutation call targets, if any. -/
def ApiCall.targetId : ApiCall → Option Nat
  | .create _ _ _ _ _ _ => none
  | .delete i => some i
  | .saveTtl i _ => some i

/-- The value carried by a create call, if the call is a create. -/
def ApiCall.createdValue : ApiCall → Option String
  | .create _ _ _ _ v _ => some v
  | .delete _ => none
  | .saveTtl _ _ => none

/-- Lines 244-246 / 268-270 / 296-298: `name = "@"` when the record name
is empty. -/
def normApplyName (s : String) : String := if s = "" then "@" else s

/-- `records.filter(zone_id=..., name=..., type=...)`: the remote records
of the zone matching the given name and type. -/
def fetchRecords (store : List RemoteRecord) (name rtype : String) :
    List RemoteRecord :=
  store.filter fun r => decide (r.name = name ∧ r.rtype = rtype)

/-- A `records.create(zone=..., name=..., type=..., ttl=..., value=...,
disable_ptr=True)` call (lines 257-264 and 334-341). -/
def mkCreateCall (zid : Nat) (name rtype : String) (ttl : Nat)
    (v : String) : ApiCall :=
  .create zid name rtype ttl v true

/-- Line 322: `delete = existing.difference(new)`. -/
def updDelSet (existing nw : OctoRecord) : List String :=
  (pySet existing.rawValues).filter fun v =>
    decide (v ∉ pySet nw.rawValues)

/-- Line 323: `update = existing.intersection(new)`. -/
def updKeepSet (existing nw : OctoRecord) : List String :=
  (pySet existing.rawValues).filter fun v =>
    decide (v ∈ pySet nw.rawValues)

/-- Line 324: `create = new.difference(existing)`. -/
def updCreateSet (existing nw : OctoRecord) : List String :=
  (pySet nw.rawValues).filter fun v =>
    decide (v ∉ pySet existing.rawValues)

/-- Lines 326-331, one fetched record: `if nb_record.value in delete:`
delete it; `if nb_record.value in update:` assign the new TTL and save.
The two tests are sequential and independent, as in the source. -/
def updateRecordCalls (del upd : List String) (newTtl : Nat)
    (r : RemoteRecord) : List ApiCall :=
  (if r.value ∈ del then [ApiCall.delete r.id] else []) ++
    (if r.value ∈ upd then [ApiCall.saveTtl r.id newTtl] else [])

/-- The `Update` arm of `_apply` (lines 295-341): fetch the stored
records under the normalized name and the existing type, partition the
raw-value sets, delete/re-TTL the fetched records, then create the new
values. -/
def applyUpdate (zid : Nat) (store : List RemoteRecord)
    (existing nw : OctoRecord) : List ApiCall :=
  let name := normApplyName existing.name
  let fetched := fetchRecords store name existing.rtype
  fetched.flatMap (updateRecordCalls (updDelSet existing nw)
      (updKeepSet existing nw) nw.ttl) ++
    (updCreateSet existing nw).map (mkCreateCall zid name nw.rtype nw.ttl)

/-- The `Delete` arm of `_apply` (lines 267-293): fetch the stored
records under `change.existing.name` (unnormalized, as in line 274) and
the existing type; delete each fetched record whose value equals a
member of the existing raw-value set. -/
def applyDelete (zid : Nat) (store : List RemoteRecord)
    (existing : OctoRecord) : List ApiCall :=
  let fetched := fetchRecords store existing.name existing.rtype
  fetched.flatMap fun r =>
    (pySet existing.rawValues).flatMap fun v =>
      if r.value = v then [ApiCall.delete r.id] else []

/-- The `Create` arm of `_apply` (lines 243-264): one create call per
member of the new raw-value set, with `disable_ptr=True`; the remote
store is not consulted. -/
def applyCreate (zid : Nat) (nw : OctoRecord) : List ApiCall :=
  (pySet nw.rawValues).map
    (mkCreateCall zid (normApplyName nw.name) nw.rtype nw.ttl)

/-- One iteration of the `for change in plan.changes` loop of `_apply`
(lines 241-341), as the list of NetBox mutation calls it issues, in
order.  `store` is the zone's remote record state consulted by the
`filter` calls. -/
def applyChange (zid : Nat) (store : List RemoteRecord) :
    Change → List ApiCall
  | .create nw => applyCreate zid nw
  | .delete ex => applyDelete zid store ex
  | .update ex nw => applyUpdate zid store ex nw

/-- A concrete stand-in for `dns.rdata.from_text` used to instantiate
witnesses on closed inputs: maps a handful of type names to the matching
`Rdata` shape and everything else to the default arm. -/
def parseStub : String → String → Rdata :=
  fun ty v =>
    if ty = "A" then .a v
    else if ty = "MX" then .mx 10 v
    else if ty = "TXT" then .txt
    else if ty = "SOA" then .soa
    else if ty = "CNAME" then .cname v
    else .other ty

/-- C5 counterexample: a record carrying the explicit TTL `0` does not
keep it — `if nb_record.ttl:` (line 132) tests Python truthiness, so an
explicit `0` falls through to the zone default (`3600` here). -/
theorem C5_counterexample :
    (⟨"www", "A", "1.2.3.4", some 0, "example.com."⟩ : NBRecord).ttl = some 0 ∧
    resolveTTL ⟨172800, 3600⟩ ⟨"www", "A", "1.2.3.4", some 0, "example.com."⟩ = 3600 ∧
    (3600 : Nat) ≠ 0 := by
  refine ⟨rfl, by decide, by decide⟩

/-- C5 (amended): an explicit **non-zero** TTL is kept; an absent or zero
TTL falls back to `soa_refresh` for `NS` records and to `default_ttl`
otherwise. -/
theorem C5_ttl_fallback (zone : NBZone) (r : NBRecord) :
    (∀ t : Nat, r.ttl = some t → t ≠ 0 → resolveTTL zone r = t) ∧
    ((r.ttl = none ∨ r.ttl = some 0) →
      (r.type = "NS" → resolveTTL zone r = zone.soa_refresh) ∧
      (r.type ≠ "NS" → resolveTTL zone r = zone.default_ttl)) := by
  constructor
  · intro t ht hnz
    simp [resolveTTL, ttlTruthy, ht, hnz]
  · rintro (ht | ht) <;>
      exact ⟨fun hns => by simp [resolveTTL, ttlTruthy, ht, hns],
             fun hns => by simp [resolveTTL, ttlTruthy, ht, hns]⟩

theorem C5_ttl_fallback_witness :
    resolveTTL ⟨172800, 3600⟩ ⟨"www", "A", "1.2.3.4", some 300, "example.com."⟩ = 300 ∧
    resolveTTL ⟨172800, 3600⟩ ⟨"", "NS", "ns1.example.com.", none, "example.com."⟩ = 172800 :=
  ⟨(C5_ttl_fallback ⟨172800, 3600⟩ ⟨"www", "A", "1.2.3.4", some 300, "example.com."⟩).1
      300 rfl (by decide),
   ((C5_ttl_fallback ⟨172800, 3600⟩ ⟨"", "NS", "ns1.example.com.", none, "example.com."⟩).2
      (Or.inl rfl)).1 rfl⟩

/-- C6: an `@` record name is normalized to `""`, and an `@` raw value is
replaced by the record's zone name before any decoding happens (the
decode pipeline of the record runs on the substituted value). -/
theorem C6_apex_normalization (r : NBRecord)
    (h1 : r.name = "@") (h2 : r.value = "@") :
    rcd_name r = "" ∧
    rcd_value_sub r = r.zoneName ∧
    (∀ parse zone, contribOf parse zone r = contribAux parse zone r r.zoneName) := by
  refine ⟨by simp [rcd_name, h1], by simp [rcd_value_sub, h2], fun parse zone => ?_⟩
  simp [contribOf, rcd_value_sub, h2]

theorem C6_apex_normalization_witness :
    rcd_name ⟨"@", "A", "@", some 300, "example.com."⟩ = "" ∧
    rcd_value_sub ⟨"@", "A", "@", some 300, "example.com."⟩ = "example.com." ∧
    (∀ parse zone, contribOf parse zone ⟨"@", "A", "@", some 300, "example.com."⟩ =
      contribAux parse zone ⟨"@", "A", "@", some 300, "example.com."⟩ "example.com.") :=
  C6_apex_normalization ⟨"@", "A", "@", some 300, "example.com."⟩ rfl rfl

/-- C7 counterexample: the trailing-dot normalization is **not**
configuration-controlled — the provider's configuration surface carries
no make-absolute flag and lines 128-130 read none of it, so no
configuration leaves the dot-less CNAME target `host.example.com`
unchanged. -/
theorem C7_counterexample :
    (∀ cfg : ProviderConfig,
      cnameAbsCfg cfg "CNAME" "host.example.com" = "host.example.com.") ∧
    ¬ ∃ cfg : ProviderConfig,
      cnameAbsCfg cfg "CNAME" "host.example.com" = "host.example.com" := by
  constructor
  · intro cfg
    show cnameAbs "CNAME" "host.example.com" = "host.example.com."
    decide
  · rintro ⟨cfg, h⟩
    have h' : cnameAbs "CNAME" "host.example.com" = "host.example.com" := h
    exact absurd h' (by decide)

/-- C7 (amended): for every configuration, a CNAME value whose last
character is not `'.'` gets `"."` appended, and a value already ending in
`'.'` is left unchanged; the behavior does not depend on the
configuration. -/
theorem C7_cname_absolutization (cfg : ProviderConfig) (r : NBRecord)
    (hty : r.type = "CNAME") (hne : rcd_value_sub r ≠ "") :
    ((rcd_value_sub r).back ≠ '.' →
      cnameAbsCfg cfg r.type (rcd_value_sub r) = rcd_value_sub r ++ ".") ∧
    ((rcd_value_sub r).back = '.' →
      cnameAbsCfg cfg r.type (rcd_value_sub r) = rcd_value_sub r) ∧
    rcd_value_final r = cnameAbsCfg cfg r.type (rcd_value_sub r) := by
  refine ⟨fun h => ?_, fun h => ?_, rfl⟩
  · simp [cnameAbsCfg, cnameAbs, hty, h]
  · simp [cnameAbsCfg, cnameAbs, hty, h]

theorem C7_cname_absolutization_witness :
    cnameAbsCfg ⟨"http://nb", "tok", none, 3600, false⟩
        (⟨"www", "CNAME", "host.example.com", some 300, "example.com."⟩ : NBRecord).type
        (rcd_value_sub ⟨"www", "CNAME", "host.example.com", some 300, "example.com."⟩) =
      rcd_value_sub ⟨"www", "CNAME", "host.example.com", some 300, "example.com."⟩ ++ "." ∧
    cnameAbsCfg ⟨"http://nb", "tok", none, 3600, false⟩
        (⟨"w2", "CNAME", "host.example.com.", some 300, "example.com."⟩ : NBRecord).type
        (rcd_value_sub ⟨"w2", "CNAME", "host.example.com.", some 300, "example.com."⟩) =
      rcd_value_sub ⟨"w2", "CNAME", "host.example.com.", some 300, "example.com."⟩ :=
  ⟨(C7_cname_absolutization ⟨"http://nb", "tok", none, 3600, false⟩
      ⟨"www", "CNAME", "host.example.com", some 300, "example.com."⟩ rfl (by decide)).1
      (by decide),
   (C7_cname_absolutization ⟨"http://nb", "tok", none, 3600, false⟩
      ⟨"w2", "CNAME", "host.example.com.", some 300, "example.com."⟩ rfl (by decide)).2.1
      (by decide)⟩

/-- What the spec's words prescribe for SPF/TXT decoding: the raw string
with every embedded `;` escaped as `\;`. -/
def specEscapeSemicolons (s : String) : String :=
  String.mk (s.data.flatMap fun c => if c = ';' then ['\\', ';'] else [c])

/-- C9 counterexample: the `SPF`/`TXT` arm (lines 203-204) passes the raw
value through unchanged, so a value containing `;` is **not** escaped as
the claim requires. -/
theorem C9_counterexample :
    decodeRdata Rdata.txt "v=spf1 a;b" =
      Except.ok (some (DecodedValue.text "v=spf1 a;b")) ∧
    specEscapeSemicolons "v=spf1 a;b" = "v=spf1 a\\;b" ∧
    DecodedValue.text "v=spf1 a;b" ≠
      DecodedValue.text (specEscapeSemicolons "v=spf1 a;b") := by
  refine ⟨rfl, by decide, by decide⟩

/-- C9 (amended): for SPF/TXT records the decoded canonical value is the
normalized raw value string unchanged — no `;` escaping is performed. -/
theorem C9_text_passthrough (parse : String → String → Rdata) (zone : NBZone)
    (r : NBRecord)
    (h : parse r.type (rcd_value_final r) = Rdata.txt ∨
         parse r.type (rcd_value_final r) = Rdata.spf) :
    contribOf parse zone r =
      Except.ok (some ⟨(rcd_name r, r.type), resolveTTL zone r,
        DecodedValue.text (rcd_value_final r)⟩) := by
  have hv : cnameAbs r.type (rcd_value_sub r) = rcd_value_final r := rfl
  rcases h with h | h <;>
    · simp only [contribOf, contribAux]
      rw [hv, h]
      rfl

theorem C9_text_passthrough_witness :
    contribOf parseStub ⟨172800, 3600⟩
        ⟨"www", "TXT", "v=spf1 a;b", some 300, "example.com."⟩ =
      Except.ok (some ⟨("www", "TXT"), 300, DecodedValue.text "v=spf1 a;b"⟩) :=
  C9_text_passthrough parseStub ⟨172800, 3600⟩
    ⟨"www", "TXT", "v=spf1 a;b", some 300, "example.com."⟩ (Or.inl (by decide))

/-- The `long_direction` field of a decoded LOC value, when the decode
result is a LOC value. -/
def decodedLongDirection (e : Except DecodeError (Option DecodedValue)) :
    Option String :=
  match e with
  | .ok (some (.loc _ _ _ _ ld _ _ _ _ _ _ _)) => some ld
  | _ => none

/-- C10: the decoded `long_direction` is computed from the **latitude**
sign component (line 166 reads `rdata.latitude[4]`): it is `"W"` exactly
when that sign is non-negative and `"E"` otherwise, independently of the
longitude. -/
theorem C10_loc_long_direction (d : LocRdata) (v : String) :
    decodedLongDirection (decodeRdata (Rdata.loc d) v) =
      some (if 0 ≤ d.latitude.sign then "W" else "E") ∧
    (∀ d' : LocRdata, d'.latitude = d.latitude →
      decodedLongDirection (decodeRdata (Rdata.loc d') v) =
        decodedLongDirection (decodeRdata (Rdata.loc d) v)) := by
  constructor
  · rfl
  · intro d' h
    simp [decodedLongDirection, decodeRdata, h]

theorem C10_loc_long_direction_witness :
    decodedLongDirection (decodeRdata
        (Rdata.loc ⟨⟨52, 30, 10, 500, 1⟩, ⟨13, 20, 0, 0, -1⟩, 1000, 200, 100, 100⟩)
        "x") = some "W" ∧
    decodedLongDirection (decodeRdata
        (Rdata.loc ⟨⟨52, 30, 10, 500, 1⟩, ⟨99, 1, 2, 3, 1⟩, 5, 6, 7, 8⟩) "x") =
      decodedLongDirection (decodeRdata
        (Rdata.loc ⟨⟨52, 30, 10, 500, 1⟩, ⟨13, 20, 0, 0, -1⟩, 1000, 200, 100, 100⟩)
        "x") :=
  ⟨(C10_loc_long_direction
      ⟨⟨52, 30, 10, 500, 1⟩, ⟨13, 20, 0, 0, -1⟩, 1000, 200, 100, 100⟩ "x").1,
   (C10_loc_long_direction
      ⟨⟨52, 30, 10, 500, 1⟩, ⟨13, 20, 0, 0, -1⟩, 1000, 200, 100, 100⟩ "x").2
      ⟨⟨52, 30, 10, 500, 1⟩, ⟨99, 1, 2, 3, 1⟩, 5, 6, 7, 8⟩ rfl⟩

theorem mem_pySet {v : String} {vs : List String} : v ∈ pySet vs ↔ v ∈ vs :=
  List.mem_dedup

theorem nodup_pySet (vs : List String) : (pySet vs).Nodup :=
  List.nodup_dedup vs

theorem mem_updDelSet {existing nw : OctoRecord} {v : String} :
    v ∈ updDelSet existing nw ↔
      v ∈ existing.rawValues ∧ v ∉ nw.rawValues := by
  simp [updDelSet, List.mem_filter, pySet, List.mem_dedup]

theorem mem_updKeepSet {existing nw : OctoRecord} {v : String} :
    v ∈ updKeepSet existing nw ↔
      v ∈ existing.rawValues ∧ v ∈ nw.rawValues := by
  simp [updKeepSet, List.mem_filter, pySet, List.mem_dedup]

theorem mem_updCreateSet {existing nw : OctoRecord} {v : String} :
    v ∈ updCreateSet existing nw ↔
      v ∈ nw.rawValues ∧ v ∉ existing.rawValues := by
  simp [updCreateSet, List.mem_filter, pySet, List.mem_dedup]

theorem updateRecordCalls_mem {del upd : List String} {ttl : Nat}
    {r : RemoteRecord} {c : ApiCall} :
    c ∈ updateRecordCalls del upd ttl r ↔
      (r.value ∈ del ∧ c = ApiCall.delete r.id) ∨
      (r.value ∈ upd ∧ c = ApiCall.saveTtl r.id ttl) := by
  by_cases h1 : r.value ∈ del <;> by_cases h2 : r.value ∈ upd <;>
    simp [updateRecordCalls, h1, h2]

theorem scan_mem {del upd : List String} {ttl : Nat}
    {fetched : List RemoteRecord} {c : ApiCall} :
    c ∈ fetched.flatMap (updateRecordCalls del upd ttl) ↔
      ∃ r, r ∈ fetched ∧
        ((r.value ∈ del ∧ c = ApiCall.delete r.id) ∨
         (r.value ∈ upd ∧ c = ApiCall.saveTtl r.id ttl)) := by
  simp [List.mem_flatMap, updateRecordCalls_mem]

theorem scan_count_delete_zero (del upd : List String) (ttl : Nat)
    (fetched : List RemoteRecord) (i : Nat)
    (h : ∀ r ∈ fetched, r.id ≠ i) :
    (fetched.flatMap (updateRecordCalls del upd ttl)).count (ApiCall.delete i) = 0 := by
  refine List.count_eq_zero.mpr fun hc => ?_
  rcases scan_mem.mp hc with ⟨r, hr, hcase⟩
  rcases hcase with ⟨_, he⟩ | ⟨_, he⟩
  · exact h r hr (ApiCall.delete.inj he.symm)
  · cases he

theorem scan_count_save_zero (del upd : List String) (ttl : Nat)
    (fetched : List RemoteRecord) (i : Nat) (t' : Nat)
    (h : ∀ r ∈ fetched, r.id ≠ i) :
    (fetched.flatMap (updateRecordCalls del upd ttl)).count (ApiCall.saveTtl i t') = 0 := by
  refine List.count_eq_zero.mpr fun hc => ?_
  rcases scan_mem.mp hc with ⟨r, hr, hcase⟩
  rcases hcase with ⟨_, he⟩ | ⟨_, he⟩
  · cases he
  · exact h r hr (ApiCall.saveTtl.inj he.symm).1

theorem updateRecordCalls_count_delete (del upd : List String) (ttl : Nat)
    (r : RemoteRecord) (i : Nat) :
    (updateRecordCalls del upd ttl r).count (ApiCall.delete i) =
      if r.value ∈ del ∧ r.id = i then 1 else 0 := by
  by_cases h1 : r.value ∈ del <;> by_cases h2 : r.value ∈ upd <;>
    by_cases h3 : r.id = i <;>
      simp [updateRecordCalls, h1, h2, h3, List.count_cons, List.count_nil]

theorem updateRecordCalls_count_save (del upd : List String) (ttl : Nat)
    (r : RemoteRecord) (i : Nat) :
    (updateRecordCalls del upd ttl r).count (ApiCall.saveTtl i ttl) =
      if r.value ∈ upd ∧ r.id = i then 1 else 0 := by
  by_cases h1 : r.value ∈ del <;> by_cases h2 : r.value ∈ upd <;>
    by_cases h3 : r.id = i <;>
      simp [updateRecordCalls, h1, h2, h3, List.count_cons, List.count_nil]

theorem scan_count_delete {del upd : List String} {ttl : Nat}
    {fetched : List RemoteRecord}
    (hnd : (fetched.map RemoteRecord.id).Nodup)
    {r : RemoteRecord} (hr : r ∈ fetched) :
    (fetched.flatMap (updateRecordCalls del upd ttl)).count (ApiCall.delete r.id) =
      if r.value ∈ del then 1 else 0 := by
  induction fetched with
  | nil => cases hr
  | cons a t ih =>
    rw [List.map_cons, List.nodup_cons] at hnd
    rw [List.flatMap_cons, List.count_append]
    rcases List.mem_cons.mp hr with h | h
    · subst h
      rw [updateRecordCalls_count_delete,
        scan_count_delete_zero del upd ttl t r.id
          (fun r' hr' he => hnd.1 (he ▸ List.mem_map_of_mem RemoteRecord.id hr'))]
      simp
    · have ha : ¬(a.value ∈ del ∧ a.id = r.id) := fun hc =>
        hnd.1 (hc.2 ▸ List.mem_map_of_mem RemoteRecord.id h)
      rw [updateRecordCalls_count_delete, if_neg ha, ih hnd.2 h]
      simp

theorem scan_count_save {del upd : List String} {ttl : Nat}
    {fetched : List RemoteRecord}
    (hnd : (fetched.map RemoteRecord.id).Nodup)
    {r : RemoteRecord} (hr : r ∈ fetched) :
    (fetched.flatMap (updateRecordCalls del upd ttl)).count (ApiCall.saveTtl r.id ttl) =
      if r.value ∈ upd then 1 else 0 := by
  induction fetched with
  | nil => cases hr
  | cons a t ih =>
    rw [List.map_cons, List.nodup_cons] at hnd
    rw [List.flatMap_cons, List.count_append]
    rcases List.mem_cons.mp hr with h | h
    · subst h
      rw [updateRecordCalls_count_save,
        scan_count_save_zero del upd ttl t r.id ttl
          (fun r' hr' he => hnd.1 (he ▸ List.mem_map_of_mem RemoteRecord.id hr'))]
      simp
    · have ha : ¬(a.value ∈ upd ∧ a.id = r.id) := fun hc =>
        hnd.1 (hc.2 ▸ List.mem_map_of_mem RemoteRecord.id h)
      rw [updateRecordCalls_count_save, if_neg ha, ih hnd.2 h]
      simp

theorem mkCreateCall_injective (zid : Nat) (n ty : String) (ttl : Nat) :
    Function.Injective (mkCreateCall zid n ty ttl) := by
  intro a b h
  simpa [mkCreateCall] using h

theorem map_create_count (zid : Nat) (n ty : String) (ttl : Nat)
    (vs : List String) (hnd : vs.Nodup) {v : String} (hv : v ∈ vs) :
    (vs.map (mkCreateCall zid n ty ttl)).count (mkCreateCall zid n ty ttl v) = 1 :=
  List.count_eq_one_of_mem (hnd.map (mkCreateCall_injective zid n ty ttl))
    (List.mem_map_of_mem _ hv)

theorem map_create_count_delete_zero (zid : Nat) (n ty : String) (ttl : Nat)
    (vs : List String) (i : Nat) :
    (vs.map (mkCreateCall zid n ty ttl)).count (ApiCall.delete i) = 0 :=
  List.count_eq_zero.mpr (by simp [mkCreateCall])

theorem map_create_count_save_zero (zid : Nat) (n ty : String) (ttl : Nat)
    (vs : List String) (i : Nat) (t' : Nat) :
    (vs.map (mkCreateCall zid n ty ttl)).count (ApiCall.saveTtl i t') = 0 :=
  List.count_eq_zero.mpr (by simp [mkCreateCall])

theorem scan_count_create_zero (del upd : List String) (ttl : Nat)
    (fetched : List RemoteRecord) (zid : Nat) (n ty : String) (t' : Nat) (v : String) :
    (fetched.flatMap (updateRecordCalls del upd ttl)).count
      (mkCreateCall zid n ty t' v) = 0 := by
  refine List.count_eq_zero.mpr fun hc => ?_
  rcases scan_mem.mp hc with ⟨r, _, hcase⟩
  rcases hcase with ⟨_, he⟩ | ⟨_, he⟩ <;> simp [mkCreateCall] at he

/-- C3 counterexample: the `Create` arm never consults the remote store —
here the store already holds a record with the very same name, type and
value, yet the create call for that value is still issued. -/
theorem C3_counterexample :
    (⟨0, "www", "A", "1.2.3.4"⟩ : RemoteRecord) ∈
      ([⟨0, "www", "A", "1.2.3.4"⟩] : List RemoteRecord) ∧
    applyChange 7 [⟨0, "www", "A", "1.2.3.4"⟩]
        (Change.create ⟨"www", "A", 300, OctoValues.single "1.2.3.4"⟩) =
      [ApiCall.create 7 "www" "A" 300 "1.2.3.4" true] := by
  constructor
  · exact List.mem_singleton.mpr rfl
  · decide

/-- C3 (amended): a `Create` change issues exactly one create call per
distinct raw value of the new record — unconditionally, without
consulting the remote store — each call carrying the (apex-normalized)
name, type, TTL and value, with `disable_ptr=True`. -/
theorem C3_create_calls (zid : Nat) (store store' : List RemoteRecord)
    (nw : OctoRecord) :
    applyChange zid store (Change.create nw) =
      applyChange zid store' (Change.create nw) ∧
    applyChange zid store (Change.create nw) =
      (pySet nw.rawValues).map
        (mkCreateCall zid (normApplyName nw.name) nw.rtype nw.ttl) ∧
    (∀ v ∈ pySet nw.rawValues,
      (applyChange zid store (Change.create nw)).count
        (mkCreateCall zid (normApplyName nw.name) nw.rtype nw.ttl v) = 1) ∧
    (∀ v, v ∈ pySet nw.rawValues ↔ v ∈ nw.rawValues) ∧
    (∀ c ∈ applyChange zid store (Change.create nw),
      ∃ v ∈ pySet nw.rawValues,
        c = ApiCall.create zid (normApplyName nw.name) nw.rtype nw.ttl v true) := by
  refine ⟨rfl, rfl, fun v hv => ?_, fun v => mem_pySet, fun c hc => ?_⟩
  · exact map_create_count zid (normApplyName nw.name) nw.rtype nw.ttl
      (pySet nw.rawValues) (nodup_pySet nw.rawValues) hv
  · rcases List.mem_map.mp hc with ⟨v, hv, rfl⟩
    exact ⟨v, hv, rfl⟩

theorem C3_create_calls_witness :
    (applyChange 7 []
      (Change.create ⟨"", "MX", 300,
        OctoValues.multiple ["10 mail1.example.com.", "20 mail2.example.com."]⟩)).count
      (mkCreateCall 7 "@" "MX" 300 "10 mail1.example.com.") = 1 :=
  (C3_create_calls 7 [] []
    ⟨"", "MX", 300,
      OctoValues.multiple ["10 mail1.example.com.", "20 mail2.example.com."]⟩).2.2.1
    "10 mail1.example.com." (by decide)

theorem flatMap_if_singleton (x : String) (a : ApiCall) :
    ∀ (vs : List String), vs.Nodup →
      vs.flatMap (fun v => if x = v then [a] else []) =
        if x ∈ vs then [a] else []
  | [], _ => by simp
  | v :: t, hnd => by
    rw [List.nodup_cons] at hnd
    by_cases h : x = v
    · subst h
      rw [List.flatMap_cons, if_pos rfl, if_pos (List.mem_cons_self _ _)]
      have ht : t.flatMap (fun v => if x = v then [a] else []) = [] := by
        rw [List.flatMap_eq_nil_iff]
        intro v' hv'
        rw [if_neg fun (he : x = v') => hnd.1 (he ▸ hv')]
      rw [ht, List.append_nil]
    · rw [List.flatMap_cons, if_neg h, List.nil_append,
        flatMap_if_singleton x a t hnd.2]
      by_cases hm : x ∈ t
      · rw [if_pos hm, if_pos (List.mem_cons_of_mem _ hm)]
      · rw [if_neg hm, if_neg fun hc => (List.mem_cons.mp hc).elim h hm]

theorem applyDelete_eq_scan (zid : Nat) (store : List RemoteRecord)
    (existing : OctoRecord) :
    applyChange zid store (Change.delete existing) =
      (fetchRecords store existing.name existing.rtype).flatMap
        (updateRecordCalls (pySet existing.rawValues) [] 0) := by
  show applyDelete zid store existing = _
  unfold applyDelete
  apply List.flatMap_congr
  intro r _
  rw [show updateRecordCalls (pySet existing.rawValues) [] 0 r =
      if r.value ∈ pySet existing.rawValues then [ApiCall.delete r.id] else [] by
    simp [updateRecordCalls]]
  exact flatMap_if_singleton r.value (ApiCall.delete r.id)
    (pySet existing.rawValues) (nodup_pySet existing.rawValues)

/-- C4: a `Delete` change deletes exactly the fetched remote records
(those matching the change's name and type) whose value is in the
existing raw-value set; every remote record whose value is outside that
set, or which is not fetched, is targeted by no mutation call at all. -/
theorem C4_delete_scoped (zid : Nat) (store : List RemoteRecord)
    (existing : OctoRecord)
    (hids : (store.map RemoteRecord.id).Nodup) :
    (∀ r ∈ fetchRecords store existing.name existing.rtype,
      r.value ∈ pySet existing.rawValues →
        (applyChange zid store (Change.delete existing)).count
          (ApiCall.delete r.id) = 1) ∧
    (∀ c ∈ applyChange zid store (Change.delete existing),
      ∃ r ∈ fetchRecords store existing.name existing.rtype,
        r.value ∈ pySet existing.rawValues ∧ c = ApiCall.delete r.id) ∧
    (∀ r ∈ store, r.value ∉ pySet existing.rawValues →
      ∀ c ∈ applyChange zid store (Change.delete existing),
        c.targetId ≠ some r.id) ∧
    (∀ r ∈ store, r ∉ fetchRecords store existing.name existing.rtype →
      ∀ c ∈ applyChange zid store (Change.delete existing),
        c.targetId ≠ some r.id) ∧
    (∀ v, v ∈ pySet existing.rawValues ↔ v ∈ existing.rawValues) := by
  have hfnd : ((fetchRecords store existing.name existing.rtype).map
      RemoteRecord.id).Nodup :=
    hids.sublist (List.Sublist.map RemoteRecord.id (List.filter_sublist store))
  have hsub : ∀ r ∈ fetchRecords store existing.name existing.rtype, r ∈ store :=
    fun r hr => (List.mem_filter.mp hr).1
  have hinj := List.inj_on_of_nodup_map hids
  refine ⟨fun r hr hv => ?_, fun c hc => ?_, fun r hr hv c hc => ?_,
    fun r hr hnf c hc => ?_, fun v => mem_pySet⟩
  · rw [applyDelete_eq_scan, scan_count_delete hfnd hr, if_pos hv]
  · rw [applyDelete_eq_scan] at hc
    rcases scan_mem.mp hc with ⟨r, hr, hcase⟩
    rcases hcase with ⟨hv, rfl⟩ | ⟨hv, _⟩
    · exact ⟨r, hr, hv, rfl⟩
    · cases hv
  · rw [applyDelete_eq_scan] at hc
    rcases scan_mem.mp hc with ⟨r', hr', hcase⟩
    rcases hcase with ⟨hv', rfl⟩ | ⟨hv', _⟩
    · intro he
      have : r' = r := hinj (hsub r' hr') hr (Option.some.inj he)
      exact hv (this ▸ hv')
    · cases hv'
  · rw [applyDelete_eq_scan] at hc
    rcases scan_mem.mp hc with ⟨r', hr', hcase⟩
    rcases hcase with ⟨hv', rfl⟩ | ⟨hv', _⟩
    · intro he
      have : r' = r := hinj (hsub r' hr') hr (Option.some.inj he)
      exact hnf (this ▸ hr')
    · cases hv'

theorem C4_delete_scoped_witness :
    (applyChange 7
        [⟨1, "mail", "MX", "10 mail1.example.com."⟩,
         ⟨2, "mail", "MX", "20 mail2.example.com."⟩,
         ⟨3, "other", "A", "9.9.9.9"⟩]
        (Change.delete ⟨"mail", "MX", 300,
          OctoValues.multiple ["10 mail1.example.com."]⟩)).count
      (ApiCall.delete 1) = 1 :=
  (C4_delete_scoped 7
      [⟨1, "mail", "MX", "10 mail1.example.com."⟩,
       ⟨2, "mail", "MX", "20 mail2.example.com."⟩,
       ⟨3, "other", "A", "9.9.9.9"⟩]
      ⟨"mail", "MX", 300, OctoValues.multiple ["10 mail1.example.com."]⟩
      (by decide)).1
    ⟨1, "mail", "MX", "10 mail1.example.com."⟩ (by decide) (by decide)

theorem applyUpdate_eq (zid : Nat) (store : List RemoteRecord)
    (existing nw : OctoRecord) :
    applyChange zid store (Change.update existing nw) =
      (fetchRecords store (normApplyName existing.name) existing.rtype).flatMap
        (updateRecordCalls (updDelSet existing nw) (updKeepSet existing nw) nw.ttl) ++
      (updCreateSet existing nw).map
        (mkCreateCall zid (normApplyName existing.name) nw.rtype nw.ttl) := rfl

theorem updKeepSet_disjoint_del {existing nw : OctoRecord} {v : String}
    (h : v ∈ updKeepSet existing nw) : v ∉ updDelSet existing nw := fun hd =>
  (mem_updDelSet.mp hd).2 (mem_updKeepSet.mp h).2

theorem updKeepSet_disjoint_create {existing nw : OctoRecord} {v : String}
    (h : v ∈ updKeepSet existing nw) : v ∉ updCreateSet existing nw := fun hc =>
  (mem_updCreateSet.mp hc).2 (mem_updKeepSet.mp h).1

theorem updDelSet_disjoint_keep {existing nw : OctoRecord} {v : String}
    (h : v ∈ updDelSet existing nw) : v ∉ updKeepSet existing nw := fun hk =>
  (mem_updDelSet.mp h).2 (mem_updKeepSet.mp hk).2

/-- C1: `Update` reconciliation.  The raw-value sets are partitioned as
`to_delete = existing − new`, `to_keep = existing ∩ new`,
`to_create = new − existing`; each fetched remote record whose value is
in `to_delete` gets exactly one delete call (and no TTL update); each
fetched remote record whose value is in `to_keep` gets exactly one
TTL-only update (no delete, and no create carries its value); one create
call is issued per value of `to_create`; no other mutation calls are
issued; and the call list is the deletes/TTL-updates followed by the
creates. -/
theorem C1_update_reconciliation (zid : Nat) (store : List RemoteRecord)
    (existing nw : OctoRecord)
    (hids : ((fetchRecords store (normApplyName existing.name)
        existing.rtype).map RemoteRecord.id).Nodup) :
    (∀ v, (v ∈ updDelSet existing nw ↔
            v ∈ existing.rawValues ∧ v ∉ nw.rawValues) ∧
          (v ∈ updKeepSet existing nw ↔
            v ∈ existing.rawValues ∧ v ∈ nw.rawValues) ∧
          (v ∈ updCreateSet existing nw ↔
            v ∈ nw.rawValues ∧ v ∉ existing.rawValues)) ∧
    (∀ r ∈ fetchRecords store (normApplyName existing.name) existing.rtype,
      r.value ∈ updDelSet existing nw →
        (applyChange zid store (Change.update existing nw)).count
          (ApiCall.delete r.id) = 1 ∧
        (applyChange zid store (Change.update existing nw)).count
          (ApiCall.saveTtl r.id nw.ttl) = 0) ∧
    (∀ r ∈ fetchRecords store (normApplyName existing.name) existing.rtype,
      r.value ∈ updKeepSet existing nw →
        (applyChange zid store (Change.update existing nw)).count
          (ApiCall.saveTtl r.id nw.ttl) = 1 ∧
        (applyChange zid store (Change.update existing nw)).count
          (ApiCall.delete r.id) = 0 ∧
        (∀ c ∈ applyChange zid store (Change.update existing nw),
          c.createdValue ≠ some r.value)) ∧
    (∀ v ∈ updCreateSet existing nw,
      (applyChange zid store (Change.update existing nw)).count
        (mkCreateCall zid (normApplyName existing.name) nw.rtype nw.ttl v) = 1) ∧
    (∀ c ∈ applyChange zid store (Change.update existing nw),
      (∃ r ∈ fetchRecords store (normApplyName existing.name) existing.rtype,
        r.value ∈ updDelSet existing nw ∧ c = ApiCall.delete r.id) ∨
      (∃ r ∈ fetchRecords store (normApplyName existing.name) existing.rtype,
        r.value ∈ updKeepSet existing nw ∧ c = ApiCall.saveTtl r.id nw.ttl) ∨
      (∃ v ∈ updCreateSet existing nw,
        c = mkCreateCall zid (normApplyName existing.name) nw.rtype nw.ttl v)) ∧
    (∃ pre post,
      applyChange zid store (Change.update existing nw) = pre ++ post ∧
      (∀ c ∈ pre, c.createdValue = none) ∧
      (∀ c ∈ post, c.createdValue ≠ none)) := by
  refine ⟨fun v => ⟨mem_updDelSet, mem_updKeepSet, mem_updCreateSet⟩,
    fun r hr hv => ?_, fun r hr hv => ?_, fun v hv => ?_, fun c hc => ?_, ?_⟩
  · rw [applyUpdate_eq, List.count_append, List.count_append,
      scan_count_delete hids hr, if_pos hv,
      scan_count_save hids hr, if_neg (updDelSet_disjoint_keep hv),
      map_create_count_delete_zero, map_create_count_save_zero]
    exact ⟨rfl, rfl⟩
  · refine ⟨?_, ?_, fun c hc => ?_⟩
    · rw [applyUpdate_eq, List.count_append, scan_count_save hids hr,
        if_pos hv, map_create_count_save_zero]
    · rw [applyUpdate_eq, List.count_append, scan_count_delete hids hr,
        if_neg (updKeepSet_disjoint_del hv), map_create_count_delete_zero]
    · rw [applyUpdate_eq] at hc
      rcases List.mem_append.mp hc with hc | hc
      · rcases scan_mem.mp hc with ⟨r', _, hcase⟩
        rcases hcase with ⟨_, rfl⟩ | ⟨_, rfl⟩ <;> simp [ApiCall.createdValue]
      · rcases List.mem_map.mp hc with ⟨v, hv', rfl⟩
        simp only [mkCreateCall, ApiCall.createdValue, ne_eq, Option.some.injEq]
        exact fun he => updKeepSet_disjoint_create hv (he ▸ hv')
  · rw [applyUpdate_eq, List.count_append, scan_count_create_zero,
      map_create_count zid (normApplyName existing.name) nw.rtype nw.ttl
        (updCreateSet existing nw)
        ((nodup_pySet nw.rawValues).filter _) hv]
  · rw [applyUpdate_eq] at hc
    rcases List.mem_append.mp hc with hc | hc
    · rcases scan_mem.mp hc with ⟨r, hr, hcase⟩
      rcases hcase with ⟨hv, rfl⟩ | ⟨hv, rfl⟩
      · exact Or.inl ⟨r, hr, hv, rfl⟩
      · exact Or.inr (Or.inl ⟨r, hr, hv, rfl⟩)
    · rcases List.mem_map.mp hc with ⟨v, hv, rfl⟩
      exact Or.inr (Or.inr ⟨v, hv, rfl⟩)
  · refine ⟨_, _, applyUpdate_eq zid store existing nw, fun c hc => ?_,
      fun c hc => ?_⟩
    · rcases scan_mem.mp hc with ⟨r, _, hcase⟩
      rcases hcase with ⟨_, rfl⟩ | ⟨_, rfl⟩ <;> rfl
    · rcases List.mem_map.mp hc with ⟨v, _, rfl⟩
      simp [mkCreateCall, ApiCall.createdValue]

theorem C1_update_reconciliation_witness :
    (applyChange 7
        [⟨1, "mail", "MX", "10 mail1.example.com."⟩,
         ⟨2, "mail", "MX", "20 mail2.example.com."⟩]
        (Change.update
          ⟨"mail", "MX", 3600,
            OctoValues.multiple ["10 mail1.example.com.", "20 mail2.example.com."]⟩
          ⟨"mail", "MX", 7200,
            OctoValues.multiple ["10 mail1.example.com.", "30 mail3.example.com."]⟩)).count
      (ApiCall.delete 2) = 1 ∧
    (applyChange 7
        [⟨1, "mail", "MX", "10 mail1.example.com."⟩,
         ⟨2, "mail", "MX", "20 mail2.example.com."⟩]
        (Change.update
          ⟨"mail", "MX", 3600,
            OctoValues.multiple ["10 mail1.example.com.", "20 mail2.example.com."]⟩
          ⟨"mail", "MX", 7200,
            OctoValues.multiple ["10 mail1.example.com.", "30 mail3.example.com."]⟩)).count
      (ApiCall.saveTtl 1 7200) = 1 ∧
    (applyChange 7
        [⟨1, "mail", "MX", "10 mail1.example.com."⟩,
         ⟨2, "mail", "MX", "20 mail2.example.com."⟩]
        (Change.update
          ⟨"mail", "MX", 3600,
            OctoValues.multiple ["10 mail1.example.com.", "20 mail2.example.com."]⟩
          ⟨"mail", "MX", 7200,
            OctoValues.multiple ["10 mail1.example.com.", "30 mail3.example.com."]⟩)).count
      (mkCreateCall 7 "mail" "MX" 7200 "30 mail3.example.com.") = 1 :=
  ⟨((C1_update_reconciliation 7
      [⟨1, "mail", "MX", "10 mail1.example.com."⟩,
       ⟨2, "mail", "MX", "20 mail2.example.com."⟩]
      ⟨"mail", "MX", 3600,
        OctoValues.multiple ["10 mail1.example.com.", "20 mail2.example.com."]⟩
      ⟨"mail", "MX", 7200,
        OctoValues.multiple ["10 mail1.example.com.", "30 mail3.example.com."]⟩
      (by decide)).2.1
      ⟨2, "mail", "MX", "20 mail2.example.com."⟩ (by decide) (by decide)).1,
   ((C1_update_reconciliation 7
      [⟨1, "mail", "MX", "10 mail1.example.com."⟩,
       ⟨2, "mail", "MX", "20 mail2.example.com."⟩]
      ⟨"mail", "MX", 3600,
        OctoValues.multiple ["10 mail1.example.com.", "20 mail2.example.com."]⟩
      ⟨"mail", "MX", 7200,
        OctoValues.multiple ["10 mail1.example.com.", "30 mail3.example.com."]⟩
      (by decide)).2.2.1
      ⟨1, "mail", "MX", "10 mail1.example.com."⟩ (by decide) (by decide)).1,
   (C1_update_reconciliation 7
      [⟨1, "mail", "MX", "10 mail1.example.com."⟩,
       ⟨2, "mail", "MX", "20 mail2.example.com."⟩]
      ⟨"mail", "MX", 3600,
        OctoValues.multiple ["10 mail1.example.com.", "20 mail2.example.com."]⟩
      ⟨"mail", "MX", 7200,
        OctoValues.multiple ["10 mail1.example.com.", "30 mail3.example.com."]⟩
      (by decide)).2.2.2.1
      "30 mail3.example.com." (by decide)⟩

/-- The sequence of contributions (key, resolved TTL, decoded value) that
the `populate` loop feeds into the `records` dict, or the decode error
that aborts the loop. -/
def contribsOf (parse : String → String → Rdata) (zone : NBZone) :
    List NBRecord → Except DecodeError (List Contribution)
  | [] => .ok []
  | r :: rs =>
      match contribOf parse zone r with
      | .error e => .error e
      | .ok none => contribsOf parse zone rs
      | .ok (some c) => (contribsOf parse zone rs).map (fun cs => c :: cs)

/-- First-encounter order of the `(name, type)` keys of a contribution
sequence. -/
def firstKeys : List Contribution → List (String × String)
  | [] => []
  | c :: cs => c.key :: (firstKeys cs).filter (fun k => decide (k ≠ c.key))

/-- The contributions carrying a given key, in encounter order. -/
def keyContribs (cs : List Contribution) (k : String × String) :
    List Contribution :=
  cs.filter (fun c => decide (c.key = k))

/-- Spec-side description of one coalesced entry (spec §3/§4.1): values of
the key in encounter order, TTL taken from the first record encountered
for the key. -/
def specGroupData (cs : List Contribution) (k : String × String) :
    RecordData :=
  { name := k.1, rtype := k.2,
    ttl := (((keyContribs cs k).head?).map Contribution.ttl).getD 0,
    values := (keyContribs cs k).map Contribution.value }

/-- Spec-side description of the whole coalescing: one entry per
`(name, type)` key, keys in first-encounter order. -/
def specGroup (cs : List Contribution) :
    List ((String × String) × RecordData) :=
  (firstKeys cs).map fun k => (k, specGroupData cs k)

theorem mem_firstKeys {cs : List Contribution} {k : String × String} :
    k ∈ firstKeys cs ↔ ∃ c ∈ cs, c.key = k := by
  induction cs with
  | nil => simp [firstKeys]
  | cons a t ih =>
    by_cases h : k = a.key
    · subst h
      simp [firstKeys]
    · simp only [firstKeys, List.mem_cons, List.mem_filter, ih,
        decide_eq_true_eq]
      constructor
      · rintro (he | ⟨⟨c, hc, rfl⟩, _⟩)
        · exact absurd he h
        · exact ⟨c, Or.inr hc, rfl⟩
      · rintro ⟨c, hc, rfl⟩
        rcases hc with rfl | hc
        · exact absurd rfl h
        · exact Or.inr ⟨⟨c, hc, rfl⟩, h⟩

theorem nodup_firstKeys (cs : List Contribution) : (firstKeys cs).Nodup := by
  induction cs with
  | nil => simp [firstKeys]
  | cons a t ih =>
    refine List.Nodup.cons (fun hmem => ?_) (ih.filter _)
    rcases List.mem_filter.mp hmem with ⟨_, hne⟩
    exact (decide_eq_true_eq.mp hne) rfl

theorem firstKeys_append (cs : List Contribution) (c : Contribution) :
    firstKeys (cs ++ [c]) =
      if c.key ∈ firstKeys cs then firstKeys cs
      else firstKeys cs ++ [c.key] := by
  induction cs with
  | nil => simp [firstKeys]
  | cons a t ih =>
    show a.key :: (firstKeys (t ++ [c])).filter (fun k => decide (k ≠ a.key)) = _
    rw [ih]
    by_cases h1 : c.key ∈ firstKeys t
    · have h2 : c.key ∈ firstKeys (a :: t) := by
        by_cases h3 : c.key = a.key
        · simp [firstKeys, h3]
        · simp [firstKeys, List.mem_filter, h1, h3]
      rw [if_pos h1, if_pos h2]
      rfl
    · by_cases h3 : c.key = a.key
      · have h2 : c.key ∈ firstKeys (a :: t) := by simp [firstKeys, h3]
        rw [if_neg h1, if_pos h2, List.filter_append]
        have : ([c.key].filter (fun k => decide (k ≠ a.key))) = [] := by
          simp [h3]
        rw [this, List.append_nil]
        rfl
      · have h2 : c.key ∉ firstKeys (a :: t) := by
          simp only [firstKeys, List.mem_cons, List.mem_filter,
            decide_eq_true_eq]
          rintro (he | ⟨hm, _⟩)
          · exact h3 he
          · exact h1 hm
        rw [if_neg h1, if_neg h2, List.filter_append]
        have : ([c.key].filter (fun k => decide (k ≠ a.key))) = [c.key] := by
          simp [h3]
        rw [this]
        show a.key :: ((firstKeys t).filter _ ++ [c.key]) = _
        rfl

theorem keyContribs_append (cs : List Contribution) (c : Contribution)
    (k : String × String) :
    keyContribs (cs ++ [c]) k =
      keyContribs cs k ++ (if c.key = k then [c] else []) := by
  by_cases h : c.key = k <;>
    simp [keyContribs, List.filter_append, h]

theorem specGroupData_append_ne (cs : List Contribution) (c : Contribution)
    (k : String × String) (h : c.key ≠ k) :
    specGroupData (cs ++ [c]) k = specGroupData cs k := by
  simp [specGroupData, keyContribs_append, h]

theorem specGroupData_append_eq_mem (cs : List Contribution)
    (c : Contribution) (hmem : ∃ c' ∈ cs, c'.key = c.key) :
    specGroupData (cs ++ [c]) c.key =
      { name := (specGroupData cs c.key).name,
        rtype := (specGroupData cs c.key).rtype,
        ttl := (specGroupData cs c.key).ttl,
        values := (specGroupData cs c.key).values ++ [c.value] } := by
  rcases hmem with ⟨c', hc', hk⟩
  have hne : keyContribs cs c.key ≠ [] := by
    intro hnil
    have : c' ∈ keyContribs cs c.key := by
      simp [keyContribs, List.mem_filter, hc', hk]
    rw [hnil] at this
    cases this
  rw [specGroupData, specGroupData, keyContribs_append, if_pos rfl]
  have hh : (keyContribs cs c.key ++ [c]).head? = (keyContribs cs c.key).head? :=
    List.head?_append_of_ne_nil _ hne
  simp [hh]

theorem specGroupData_append_eq_notmem (cs : List Contribution)
    (c : Contribution) (hmem : ∀ c' ∈ cs, c'.key ≠ c.key) :
    specGroupData (cs ++ [c]) c.key =
      { name := c.key.1, rtype := c.key.2, ttl := c.ttl,
        values := [c.value] } := by
  have hnil : keyContribs cs c.key = [] := by
    rw [keyContribs, List.filter_eq_nil_iff]
    intro c' hc'
    simp only [decide_eq_true_eq]
    exact hmem c' hc'
  rw [specGroupData, keyContribs_append, if_pos rfl, hnil, List.nil_append]
  rfl

theorem insertContrib_map_not_mem (ks : List (String × String))
    (g : (String × String) → RecordData) (c : Contribution)
    (h : c.key ∉ ks) :
    insertContrib (ks.map fun k => (k, g k)) c =
      (ks.map fun k => (k, g k)) ++
        [(c.key, ⟨c.key.1, c.key.2, c.ttl, [c.value]⟩)] := by
  induction ks with
  | nil => rfl
  | cons k t ih =>
    have hk : k ≠ c.key := fun he => h (he ▸ List.mem_cons_self k t)
    show insertContrib ((k, g k) :: t.map fun k => (k, g k)) c = _
    rw [insertContrib, if_neg hk, ih fun hm => h (List.mem_cons_of_mem _ hm)]
    rfl

theorem insertContrib_map_mem (ks : List (String × String))
    (g : (String × String) → RecordData) (c : Contribution)
    (hnd : ks.Nodup) (h : c.key ∈ ks) :
    insertContrib (ks.map fun k => (k, g k)) c =
      ks.map fun k =>
        (k, if k = c.key then
              ⟨(g k).name, (g k).rtype, (g k).ttl, (g k).values ++ [c.value]⟩
            else g k) := by
  induction ks with
  | nil => cases h
  | cons k t ih =>
    rw [List.nodup_cons] at hnd
    by_cases hk : k = c.key
    · show insertContrib ((k, g k) :: t.map fun k => (k, g k)) c = _
      rw [insertContrib, if_pos hk]
      have ht : (t.map fun k' => (k',
          if k' = c.key then
            ⟨(g k').name, (g k').rtype, (g k').ttl, (g k').values ++ [c.value]⟩
          else g k')) = t.map fun k' => (k', g k') := by
        apply List.map_congr_left
        intro k' hk'
        rw [if_neg fun (he : k' = c.key) => hnd.1 ((he.trans hk.symm) ▸ hk')]
      rw [List.map_cons, if_pos hk, ht]
    · have hmem : c.key ∈ t := (List.mem_cons.mp h).elim
        (fun he => absurd he.symm hk) id
      show insertContrib ((k, g k) :: t.map fun k => (k, g k)) c = _
      rw [insertContrib, if_neg hk, ih hnd.2 hmem, List.map_cons, if_neg hk]

/-- The `records` dict built by the `populate` loop equals the spec-side
coalescing: one entry per key in first-encounter order, values in
encounter order, TTL from the first contribution of the key. -/
theorem foldl_insertContrib_eq_specGroup (cs : List Contribution) :
    cs.foldl insertContrib [] = specGroup cs := by
  induction cs using List.reverseRecOn with
  | nil => rfl
  | append_singleton cs c ih =>
    rw [List.foldl_append, ih, List.foldl_cons, List.foldl_nil]
    by_cases h : c.key ∈ firstKeys cs
    · rw [specGroup, insertContrib_map_mem _ _ _ (nodup_firstKeys cs) h,
        specGroup, firstKeys_append, if_pos h]
      apply List.map_congr_left
      intro k hk
      by_cases hkc : k = c.key
      · rw [if_pos hkc, hkc,
          specGroupData_append_eq_mem cs c (mem_firstKeys.mp (hkc ▸ hk))]
      · rw [if_neg hkc, specGroupData_append_ne cs c k fun he => hkc he.symm]
    · rw [specGroup, insertContrib_map_not_mem _ _ _ h,
        specGroup, firstKeys_append, if_neg h, List.map_append]
      congr 1
      · apply List.map_congr_left
        intro k hk
        have hne : c.key ≠ k := fun he => h (he ▸ hk)
        rw [specGroupData_append_ne cs c k hne]
      · rw [List.map_singleton,
          specGroupData_append_eq_notmem cs c
            (fun c' hc' he => h (mem_firstKeys.mpr ⟨c', hc', he⟩))]

/-- When every record decodes (to a contribution or an `SOA` skip), the
`populate` loop computes exactly the fold of `insertContrib` over the
contribution sequence. -/
theorem populateGroups_eq (parse : String → String → Rdata) (zone : NBZone) :
    ∀ (rs : List NBRecord) (cs : List Contribution),
      contribsOf parse zone rs = .ok cs →
      ∀ acc, populateGroups parse zone rs acc = .ok (cs.foldl insertContrib acc)
  | [], cs, h, acc => by
    rw [contribsOf] at h
    cases h
    rfl
  | r :: rs, cs, h, acc => by
    rw [contribsOf] at h
    rw [populateGroups]
    cases hc : contribOf parse zone r with
    | error e => rw [hc] at h; cases h
    | ok o =>
      cases o with
      | none =>
        rw [hc] at h
        exact populateGroups_eq parse zone rs cs h acc
      | some c =>
        rw [hc] at h
        cases hcs : contribsOf parse zone rs with
        | error e => rw [hcs] at h; cases h
        | ok cs' =>
          rw [hcs] at h
          cases h
          exact populateGroups_eq parse zone rs cs' hcs (insertContrib acc c)

instance {ε α : Type} [DecidableEq ε] [DecidableEq α] :
    DecidableEq (Except ε α) := fun a b =>
  match a, b with
  | .ok x, .ok y =>
      if h : x = y then isTrue (by rw [h]) else isFalse (by simp [h])
  | .error x, .error y =>
      if h : x = y then isTrue (by rw [h]) else isFalse (by simp [h])
  | .ok _, .error _ => isFalse (by simp)
  | .error _, .ok _ => isFalse (by simp)

/-- C2: coalescing.  When every fetched record decodes, `populate`
produces exactly one canonical record per `(name, type)` key, in
first-encounter order, with the key's decoded values in encounter order
and the TTL resolved from the first record encountered for that key;
one-value keys are emitted in scalar shape, others as a value list. -/
theorem C2_coalescing (parse : String → String → Rdata) (zone : NBZone)
    (rs : List NBRecord) (cs : List Contribution)
    (h : contribsOf parse zone rs = .ok cs) :
    populateRecords parse zone rs =
      .ok ((specGroup cs).map fun kd => mkCanonicalRecord kd.2) ∧
    ((specGroup cs).map Prod.fst).Nodup ∧
    (∀ kd ∈ specGroup cs,
      kd.2.values = (keyContribs cs kd.1).map Contribution.value ∧
      (keyContribs cs kd.1).head?.map Contribution.ttl = some kd.2.ttl) ∧
    (∀ v, shapeValues [v] = CanonicalValue.single v) ∧
    (∀ vs, vs.length ≠ 1 → shapeValues vs = CanonicalValue.multiple vs) := by
  refine ⟨?_, ?_, ?_, fun v => rfl, ?_⟩
  · rw [populateRecords, populateGroups_eq parse zone rs cs h [],
      foldl_insertContrib_eq_specGroup]
    rfl
  · have hfst : (specGroup cs).map Prod.fst = firstKeys cs := by
      rw [specGroup, List.map_map]
      exact List.map_id _
    rw [hfst]
    exact nodup_firstKeys cs
  · intro kd hkd
    rcases List.mem_map.mp hkd with ⟨k, hk, rfl⟩
    rcases mem_firstKeys.mp hk with ⟨c', hc', hck⟩
    have hmem : c' ∈ keyContribs cs k := by
      simp [keyContribs, List.mem_filter, hc', hck]
    cases hh : (keyContribs cs k).head? with
    | none =>
      rw [List.head?_eq_none_iff] at hh
      rw [hh] at hmem
      cases hmem
    | some c0 =>
      exact ⟨rfl, by simp [specGroupData, hh]⟩
  · intro vs hlen
    cases vs with
    | nil => rfl
    | cons a t =>
      cases t with
      | nil => exact absurd rfl hlen
      | cons b t' => rfl

theorem C2_coalescing_witness :
    populateRecords parseStub ⟨172800, 3600⟩
        [⟨"mail", "MX", "10 mail1.example.com.", some 3600, "example.com."⟩,
         ⟨"mail", "MX", "20 mail2.example.com.", some 7200, "example.com."⟩,
         ⟨"www", "A", "1.2.3.4", none, "example.com."⟩] =
      Except.ok ((specGroup
        [⟨("mail", "MX"), 3600, DecodedValue.mx 10 "10 mail1.example.com."⟩,
         ⟨("mail", "MX"), 7200, DecodedValue.mx 10 "20 mail2.example.com."⟩,
         ⟨("www", "A"), 3600, DecodedValue.addr "1.2.3.4"⟩]).map
          fun kd => mkCanonicalRecord kd.2) :=
  (C2_coalescing parseStub ⟨172800, 3600⟩
    [⟨"mail", "MX", "10 mail1.example.com.", some 3600, "example.com."⟩,
     ⟨"mail", "MX", "20 mail2.example.com.", some 7200, "example.com."⟩,
     ⟨"www", "A", "1.2.3.4", none, "example.com."⟩]
    [⟨("mail", "MX"), 3600, DecodedValue.mx 10 "10 mail1.example.com."⟩,
     ⟨("mail", "MX"), 7200, DecodedValue.mx 10 "20 mail2.example.com."⟩,
     ⟨("www", "A"), 3600, DecodedValue.addr "1.2.3.4"⟩]
    (by decide)).1

theorem contribOf_parse_soa (parse : String → String → Rdata) (zone : NBZone)
    (r : NBRecord) (h : parse r.type (rcd_value_final r) = Rdata.soa) :
    contribOf parse zone r = .ok none := by
  have hv : cnameAbs r.type (rcd_value_sub r) = rcd_value_final r := rfl
  simp only [contribOf, contribAux]
  rw [hv, h]
  rfl

theorem contribOf_parse_other (parse : String → String → Rdata)
    (zone : NBZone) (r : NBRecord) (s : String)
    (h : parse r.type (rcd_value_final r) = Rdata.other s) :
    contribOf parse zone r = .error DecodeError.valueError := by
  have hv : cnameAbs r.type (rcd_value_sub r) = rcd_value_final r := rfl
  simp only [contribOf, contribAux]
  rw [hv, h]
  rfl

theorem populateGroups_middle_skip (parse : String → String → Rdata)
    (zone : NBZone) (r : NBRecord) (h : contribOf parse zone r = .ok none) :
    ∀ (rs₁ rs₂ : List NBRecord) (acc : List ((String × String) × RecordData)),
      populateGroups parse zone (rs₁ ++ r :: rs₂) acc =
        populateGroups parse zone (rs₁ ++ rs₂) acc
  | [], rs₂, acc => by
    rw [List.nil_append, List.nil_append, populateGroups, h]
  | a :: t, rs₂, acc => by
    rw [List.cons_append, List.cons_append, populateGroups, populateGroups]
    cases hc : contribOf parse zone a with
    | error e => rfl
    | ok o =>
      cases o with
      | none => exact populateGroups_middle_skip parse zone r h t rs₂ acc
      | some c =>
        exact populateGroups_middle_skip parse zone r h t rs₂
          (insertContrib acc c)

theorem populateGroups_middle_error (parse : String → String → Rdata)
    (zone : NBZone) (r : NBRecord)
    (h : contribOf parse zone r = .error DecodeError.valueError) :
    ∀ (rs₁ rs₂ : List NBRecord) (acc acc₁ : List ((String × String) × RecordData)),
      populateGroups parse zone rs₁ acc = .ok acc₁ →
      populateGroups parse zone (rs₁ ++ r :: rs₂) acc =
        .error DecodeError.valueError
  | [], rs₂, acc, acc₁, _ => by
    rw [List.nil_append, populateGroups, h]
  | a :: t, rs₂, acc, acc₁, hok => by
    rw [List.cons_append, populateGroups]
    rw [populateGroups] at hok
    cases hc : contribOf parse zone a with
    | error e => rw [hc] at hok
    | ok o =>
      cases o with
      | none =>
        rw [hc] at hok
        exact populateGroups_middle_error parse zone r h t rs₂ acc acc₁ hok
      | some c =>
        rw [hc] at hok
        exact populateGroups_middle_error parse zone r h t rs₂
          (insertContrib acc c) acc₁ hok

/-- C8: an `SOA` record is silently skipped — `populate` over a sequence
containing it equals `populate` over the sequence without it (no error,
nothing emitted for it) — while a record whose parsed type has no case
in the decode `match` makes the whole populate return the decode error
(provided the preceding records decoded), aborting the zone instead of
skipping the record. -/
theorem C8_soa_skip_unknown_abort (parse : String → String → Rdata)
    (zone : NBZone) (r : NBRecord) (rs₁ rs₂ : List NBRecord) :
    (parse r.type (rcd_value_final r) = Rdata.soa →
      populateRecords parse zone (rs₁ ++ r :: rs₂) =
        populateRecords parse zone (rs₁ ++ rs₂)) ∧
    (∀ s : String, parse r.type (rcd_value_final r) = Rdata.other s →
      ∀ acc₁, populateGroups parse zone rs₁ [] = .ok acc₁ →
        populateRecords parse zone (rs₁ ++ r :: rs₂) =
          .error DecodeError.valueError) := by
  constructor
  · intro h
    rw [populateRecords, populateRecords,
      populateGroups_middle_skip parse zone r
        (contribOf_parse_soa parse zone r h) rs₁ rs₂ []]
  · intro s h acc₁ hok
    rw [populateRecords,
      populateGroups_middle_error parse zone r
        (contribOf_parse_other parse zone r s h) rs₁ rs₂ [] acc₁ hok]
    rfl

theorem C8_soa_skip_unknown_abort_witness :
    (populateRecords parseStub ⟨172800, 3600⟩
        [⟨"www", "A", "1.2.3.4", none, "example.com."⟩,
         ⟨"", "SOA", "ns1 hostmaster 1 2 3 4 5", none, "example.com."⟩] =
      populateRecords parseStub ⟨172800, 3600⟩
        [⟨"www", "A", "1.2.3.4", none, "example.com."⟩]) ∧
    (populateRecords parseStub ⟨172800, 3600⟩
        [⟨"www", "A", "1.2.3.4", none, "example.com."⟩,
         ⟨"x", "TLSA", "0 0 1 deadbeef", none, "example.com."⟩] =
      Except.error DecodeError.valueError) :=
  ⟨(C8_soa_skip_unknown_abort parseStub ⟨172800, 3600⟩
      ⟨"", "SOA", "ns1 hostmaster 1 2 3 4 5", none, "example.com."⟩
      [⟨"www", "A", "1.2.3.4", none, "example.com."⟩] []).1 (by decide),
   (C8_soa_skip_unknown_abort parseStub ⟨172800, 3600⟩
      ⟨"x", "TLSA", "0 0 1 deadbeef", none, "example.com."⟩
      [⟨"www", "A", "1.2.3.4", none, "example.com."⟩] []).2 "TLSA" (by decide)
      [(("www", "A"), ⟨"www", "A", 3600, [DecodedValue.addr "1.2.3.4"]⟩)]
      (by decide)⟩
